import Mathlib

/-!
Verification of the MolinaFacilities authorization subsystem.

Shallow embedding of the permission / authorization / audit code:
- `app/common/security.py`  (capability normalization `_caps_list`, `has_cap`)
- `app/modules/auth/security.py`  (`_parse_caps`, `has_cap`)
- `app/core/auth.py`  (`_has_cap`, `record_audit`)
- `app/modules/users/permissions.py`  (`PermissionLevel`, `PermissionManager`)
- `app/modules/users/views.py`  (`get_user_permission_level`, `update_user_permissions`, `elevate_user`)
- `app/common/users.py`  (`record_audit`, `query_audit`)

Python's dynamically-typed values are embedded as `PyVal`; user rows
(sqlite rows / dicts) are association lists from column names to `PyVal`.
-/

namespace Molina

/-- Embedding of the Python values that flow through the permission code:
`None`, booleans, integers, strings, lists and string-keyed dicts.
(JSON fractional numbers and tuples/sets are not needed by any claim and are
collapsed: numbers parse only as integers, tuples/sets are represented as
lists.) -/
inductive PyVal : Type where
  | none : PyVal
  | bool : Bool → PyVal
  | int : Int → PyVal
  | str : String → PyVal
  | list : List PyVal → PyVal
  | dict : List (String × PyVal) → PyVal

/-- Python truthiness (`bool(v)`). -/
def pyTruthy : PyVal → Bool
  | .none => false
  | .bool b => b
  | .int n => decide (n ≠ 0)
  | .str s => decide (s ≠ "")
  | .list xs => !xs.isEmpty
  | .dict kvs => !kvs.isEmpty

mutual
/-- Python `repr` (only the shapes reachable from JSON payloads). -/
def pyRepr : PyVal → String
  | .none => "None"
  | .bool true => "True"
  | .bool false => "False"
  | .int n => toString n
  | .str s => "\x27" ++ s ++ "\x27"
  | .list xs => "[" ++ pyReprList xs ++ "]"
  | .dict kvs => "\x7b" ++ pyReprDict kvs ++ "\x7d"

def pyReprList : List PyVal → String
  | [] => ""
  | [x] => pyRepr x
  | x :: xs => pyRepr x ++ ", " ++ pyReprList xs

def pyReprDict : List (String × PyVal) → String
  | [] => ""
  | [kv] => "\x27" ++ kv.1 ++ "\x27: " ++ pyRepr kv.2
  | kv :: kvs => "\x27" ++ kv.1 ++ "\x27: " ++ pyRepr kv.2 ++ ", " ++ pyReprDict kvs
end

/-- Python `str(v)`: identity on strings, `repr` otherwise. -/
def pyStr : PyVal → String
  | .str s => s
  | v => pyRepr v

mutual
/-- Structural equality on embedded Python values. -/
def pyBeq : PyVal → PyVal → Bool
  | .none, .none => true
  | .bool a, .bool b => a == b
  | .int a, .int b => a == b
  | .str a, .str b => a == b
  | .list a, .list b => pyBeqList a b
  | .dict a, .dict b => pyBeqDict a b
  | _, _ => false

def pyBeqList : List PyVal → List PyVal → Bool
  | [], [] => true
  | a :: as, b :: bs => pyBeq a b && pyBeqList as bs
  | _, _ => false

def pyBeqDict : List (String × PyVal) → List (String × PyVal) → Bool
  | [], [] => true
  | a :: as, b :: bs => a.1 == b.1 && pyBeq a.2 b.2 && pyBeqDict as bs
  | _, _ => false
end

/-- Python `==` between values of the shapes above: structural equality,
except that booleans compare equal to the corresponding integers. -/
def pyEq (a b : PyVal) : Bool :=
  match a, b with
  | .bool x, .int y => decide ((if x then (1 : Int) else 0) = y)
  | .int x, .bool y => decide (x = (if y then (1 : Int) else 0))
  | _, _ => pyBeq a b

/-- A user row / dict: association list from column name to value. -/
abbrev Row := List (String × PyVal)

/-- `row.get(k)` on a Python dict (`None` when the key is absent). -/
def rowGet (r : Row) (k : String) : PyVal :=
  (r.lookup k).getD .none

/-- `row.get(k, d)` on a Python dict. -/
def rowGetD (r : Row) (k : String) (d : PyVal) : PyVal :=
  (r.lookup k).getD d

/-- Python `a or b`. -/
def pyOr (a b : PyVal) : PyVal :=
  if pyTruthy a then a else b

/-- `v.get(k)` when `v` is a dict; `None` otherwise (the non-dict case is
unreachable at the call sites we model). -/
def pyDictGet (v : PyVal) (k : String) : PyVal :=
  match v with
  | .dict kvs => rowGet kvs k
  | _ => .none

/-! ### Character-level string helpers

Python's `str.strip` / `str.lower` / `str.split` are re-implemented on
`List Char` (the payloads involved are ASCII). -/

/-- The whitespace stripped by Python's `str.strip()`. -/
def pyWs (c : Char) : Bool :=
  c = ' ' || c = '\t' || c = '\n' || c = '\r' || c = '\x0b' || c = '\x0c'

/-- Python `s.strip()`. -/
def pyStrip (s : String) : String :=
  String.mk (((s.data.dropWhile pyWs).reverse.dropWhile pyWs).reverse)

/-- ASCII lower-casing of one character. -/
def lowerChar (c : Char) : Char :=
  if c.toNat ≥ 65 && c.toNat ≤ 90 then Char.ofNat (c.toNat + 32) else c

/-- Python `s.lower()` (ASCII). -/
def pyLower (s : String) : String :=
  String.mk (s.data.map lowerChar)

/-- `s.split(",")` on character lists. -/
def splitComma : List Char → List (List Char)
  | [] => [[]]
  | c :: rest =>
    let r := splitComma rest
    if c = ',' then [] :: r
    else
      match r with
      | [] => [[c]]
      | h :: t => (c :: h) :: t

/-- Python `s.split(",")`. -/
def pySplitComma (s : String) : List String :=
  (splitComma s.data).map String.mk

/-- Byte-wise lexicographic `≤` on character lists (per character code
point), the order SQLite's default BINARY collation gives ASCII TEXT. -/
def strLeChars : List Char → List Char → Bool
  | [], _ => true
  | _ :: _, [] => false
  | a :: as, b :: bs =>
    if a.toNat = b.toNat then strLeChars as bs else decide (a.toNat < b.toNat)

/-- Byte-wise lexicographic `≤` on strings. -/
def strLe (a b : String) : Bool :=
  strLeChars a.data b.data

/-! ### A small JSON parser, modelling Python's `json.loads`

Strict JSON over the `PyVal` shapes above.  The parser is fueled (fuel
bounded by the input length plus one suffices, since every nesting level
consumes at least one character); `json_loads` returns `Option.none`
exactly where `json.loads` raises. -/

/-- JSON whitespace. -/
def jsonWs (c : Char) : Bool :=
  c = ' ' || c = '\t' || c = '\n' || c = '\r'

def skipWs : List Char → List Char
  | [] => []
  | c :: cs => if jsonWs c then skipWs cs else c :: cs

/-- Parse the remainder of a JSON string literal (opening quote consumed). -/
def parseJStr : List Char → Option (String × List Char)
  | [] => Option.none
  | '"' :: cs => some ("", cs)
  | '\\' :: e :: cs =>
    let esc : Option Char :=
      if e = '"' then some '"'
      else if e = '\\' then some '\\'
      else if e = '/' then some '/'
      else if e = 'n' then some '\n'
      else if e = 't' then some '\t'
      else if e = 'r' then some '\r'
      else Option.none
    match esc with
    | some ch => (parseJStr cs).map (fun p => (String.mk (ch :: p.1.data), p.2))
    | Option.none => Option.none
  | c :: cs => (parseJStr cs).map (fun p => (String.mk (c :: p.1.data), p.2))

/-- Split a leading run of decimal digits. -/
def takeDigits : List Char → List Char × List Char
  | [] => ([], [])
  | c :: cs =>
    if c.isDigit then
      let p := takeDigits cs
      (c :: p.1, p.2)
    else ([], c :: cs)

def digitsToNat (ds : List Char) : Nat :=
  ds.foldl (fun a c => a * 10 + (c.toNat - 48)) 0

/-- Python-dict semantics for building an object: a repeated key keeps its
first position but takes the last value. -/
def dictSetV : List (String × PyVal) → String → PyVal → List (String × PyVal)
  | [], k, v => [(k, v)]
  | kv :: rest, k, v =>
    if kv.1 = k then (kv.1, v) :: rest else kv :: dictSetV rest k v

mutual
def parseJVal : Nat → List Char → Option (PyVal × List Char)
  | 0, _ => Option.none
  | _ + 1, [] => Option.none
  | fuel + 1, c :: cs =>
    if c = '"' then (parseJStr cs).map (fun p => (PyVal.str p.1, p.2))
    else if c = '[' then
      match skipWs cs with
      | ']' :: r => some (PyVal.list [], r)
      | l2 => (parseJItems fuel l2).map (fun p => (PyVal.list p.1, p.2))
    else if c = '\x7b' then
      match skipWs cs with
      | '\x7d' :: r => some (PyVal.dict [], r)
      | l2 =>
        (parseJPairs fuel l2).map
          (fun p => (PyVal.dict (p.1.foldl (fun a kv => dictSetV a kv.1 kv.2) []), p.2))
    else if c = 't' then
      match cs with
      | 'r' :: 'u' :: 'e' :: r => some (PyVal.bool true, r)
      | _ => Option.none
    else if c = 'f' then
      match cs with
      | 'a' :: 'l' :: 's' :: 'e' :: r => some (PyVal.bool false, r)
      | _ => Option.none
    else if c = 'n' then
      match cs with
      | 'u' :: 'l' :: 'l' :: r => some (PyVal.none, r)
      | _ => Option.none
    else if c = '-' then
      match takeDigits cs with
      | ([], _) => Option.none
      | (ds, r) => some (PyVal.int (-(digitsToNat ds : Int)), r)
    else if c.isDigit then
      match takeDigits (c :: cs) with
      | (ds, r) => some (PyVal.int (digitsToNat ds), r)
    else Option.none

def parseJItems : Nat → List Char → Option (List PyVal × List Char)
  | 0, _ => Option.none
  | fuel + 1, l =>
    match parseJVal fuel l with
    | Option.none => Option.none
    | some (v, r) =>
      match skipWs r with
      | ',' :: r2 =>
        match parseJItems fuel (skipWs r2) with
        | some (vs, r3) => some (v :: vs, r3)
        | Option.none => Option.none
      | ']' :: r2 => some ([v], r2)
      | _ => Option.none

def parseJPairs : Nat → List Char → Option (List (String × PyVal) × List Char)
  | 0, _ => Option.none
  | fuel + 1, l =>
    match l with
    | '"' :: cs =>
      match parseJStr cs with
      | Option.none => Option.none
      | some (k, r) =>
        match skipWs r with
        | ':' :: r2 =>
          match parseJVal fuel (skipWs r2) with
          | Option.none => Option.none
          | some (v, r3) =>
            match skipWs r3 with
            | ',' :: r4 =>
              match parseJPairs fuel (skipWs r4) with
              | some (ps, r5) => some ((k, v) :: ps, r5)
              | Option.none => Option.none
            | '\x7d' :: r4 => some ([(k, v)], r4)
            | _ => Option.none
        | _ => Option.none
    | _ => Option.none
end

/-- `json.loads`: `Option.none` models a raised exception. -/
def json_loads (s : String) : Option PyVal :=
  match parseJVal (s.length + 1) (skipWs s.data) with
  | some (v, r) => if (skipWs r).isEmpty then some v else Option.none
  | Option.none => Option.none

/-! ## `app/common/security.py` — capability resolver and `has_cap` -/

namespace CommonSecurity

/-- `_as_bool(user_row, key)` from `app/common/security.py`. -/
def as_bool (row : Row) (key : String) : Bool :=
  match rowGet row key with
  | .bool b => b
  | .none => false
  | .int n => decide (n ≠ 0)
  | v => ["1", "true", "yes", "y", "on"].contains (pyLower (pyStrip (pyStr v)))

/-- `_caps_list(user_row)` from `app/common/security.py`: normalize the
`caps` payload to a set of lowercase strings.  Accepts JSON text, a list,
a comma-separated string, or missing (tuples/sets are subsumed by the list
constructor). -/
def caps_list (row : Row) : Finset String :=
  let raw := pyOr (rowGet row "caps") (pyOr (rowGet row "capabilities") (.list []))
  let caps : List PyVal :=
    match raw with
    | .str s0 =>
      let s := pyStrip s0
      if s = "" then []
      else
        match json_loads s with
        | some (.list xs) => xs
        | some v => [.str (pyStr v)]
        | Option.none => ((pySplitComma s).map pyStrip).filter (fun c => c ≠ "") |>.map .str
    | .list xs => xs
    | _ => []
  (caps.map (fun c => pyLower (pyStrip (pyStr c)))).toFinset

/-- The `_SYNONYMS` table of `app/common/security.py`
(`dict.get`: `Option.none` for caps not in the table). -/
def synonyms (cap : String) : Option (Finset String) :=
  if cap = "asset" then some {"asset", "inventory"}
  else if cap = "inventory" then some {"asset", "inventory"}
  else if cap = "fulfillment_any" then
    some {"fulfillment_any", "fulfillment", "fulfillment_staff", "fulfillment_customer"}
  else if cap = "fulfillment_staff" then some {"fulfillment_staff", "fulfillment_any", "fulfillment"}
  else if cap = "fulfillment_customer" then
    some {"fulfillment_customer", "fulfillment_any", "fulfillment"}
  else if cap = "insights" then some {"insights"}
  else if cap = "users" then some {"users", "user_admin"}
  else if cap = "admin" then some {"admin"}
  else if cap = "sysadmin" then some {"sysadmin"}
  else Option.none

/-- `has_cap(user_row, cap)` from `app/common/security.py`.
`Option.none` and the empty dict are both falsy (`if not user_row`). -/
def has_cap (user_row : Option Row) (cap : String) : Bool :=
  match user_row with
  | Option.none => false
  | some row =>
    if !pyTruthy (.dict row) then false
    else if as_bool row "is_sysadmin" || as_bool row "sysadmin" then true
    else if as_bool row "is_admin" || as_bool row "admin" then true
    else
      let want := (synonyms (pyLower cap)).getD {pyLower cap}
      let hv := caps_list row
      decide ((hv ∩ want) ≠ ∅)

end CommonSecurity

/-! ## `app/modules/auth/security.py` — `_parse_caps` and `has_cap` -/

namespace AuthSecurity

/-- Boolean dict with Python assignment semantics (`d[k] = v`). -/
def dictSetB : List (String × Bool) → String → Bool → List (String × Bool)
  | [], k, v => [(k, v)]
  | kv :: rest, k, v =>
    if kv.1 = k then (kv.1, v) :: rest else kv :: dictSetB rest k v

/-- `caps.get(k)` with falsy default. -/
def dictGetB (d : List (String × Bool)) (k : String) : Bool :=
  (d.lookup k).getD false

/-- `_parse_caps(u)` from `app/modules/auth/security.py`: JSON text, dict or
list of strings to a boolean dict, then the explicit `is_admin` /
`is_sysadmin` columns override. -/
def parse_caps (u : Row) : List (String × Bool) :=
  let raw := rowGet u "caps"
  let raw : PyVal :=
    match raw with
    | .str s => (json_loads s).getD (.dict [])
    | v => v
  let caps : List (String × Bool) :=
    match raw with
    | .dict kvs => kvs.foldl (fun a kv => dictSetB a kv.1 (pyTruthy kv.2)) []
    | .list xs => xs.foldl (fun a x => dictSetB a (pyStr x) true) []
    | _ => []
  let caps :=
    match u.lookup "is_admin" with
    | some v => dictSetB caps "is_admin" (pyTruthy v)
    | Option.none => caps
  match u.lookup "is_sysadmin" with
  | some v => dictSetB caps "is_sysadmin" (pyTruthy v)
  | Option.none => caps

/-- The `_CAP_SYNONYMS` table of `app/modules/auth/security.py`
(`dict.get(cap, cap)`). -/
def cap_synonym (cap : String) : String :=
  if cap = "asset" then "can_asset"
  else if cap = "inventory" then "can_inventory"
  else if cap = "can_asset" then "can_asset"
  else if cap = "can_inventory" then "can_inventory"
  else if cap = "send" then "can_send"
  else if cap = "can_send" then "can_send"
  else if cap = "insights" then "can_insights"
  else if cap = "can_insights" then "can_insights"
  else if cap = "users" then "can_users"
  else if cap = "can_users" then "can_users"
  else if cap = "admin" then "is_admin"
  else if cap = "sysadmin" then "is_sysadmin"
  else if cap = "fulfillment_staff" then "can_fulfillment_staff"
  else if cap = "can_fulfillment_staff" then "can_fulfillment_staff"
  else if cap = "fulfillment_customer" then "can_fulfillment_customer"
  else if cap = "can_fulfillment_customer" then "can_fulfillment_customer"
  else if cap = "fulfillment_any" then "fulfillment_any"
  else cap

/-- `has_cap(user_row, cap)` from `app/modules/auth/security.py`. -/
def has_cap (user_row : Option Row) (cap : String) : Bool :=
  match user_row with
  | Option.none => false
  | some u =>
    if !pyTruthy (.dict u) then false
    else
      let caps := parse_caps u
      if dictGetB caps "is_sysadmin" || dictGetB caps "is_admin" then true
      else
        let key := cap_synonym cap
        if key = "fulfillment_any" then
          dictGetB caps "fulfillment_staff" || dictGetB caps "fulfillment_customer"
        else dictGetB caps key

end AuthSecurity

/-! ## `app/core/auth.py` — `_has_cap` -/

namespace CoreAuth

/-- `_as_bool(user, key)` from `app/core/auth.py`: `bool(user and user.get(key))`. -/
def as_bool (user : Option Row) (key : String) : Bool :=
  match user with
  | some u => if u.isEmpty then false else pyTruthy (rowGet u key)
  | Option.none => false

/-- `_has_cap(user, cap)` from `app/core/auth.py`. -/
def has_cap (user : Option Row) (cap : String) : Bool :=
  if as_bool user "is_admin" || as_bool user "is_sysadmin" then true
  else
    match user with
    | Option.none => false
    | some u =>
      if !pyTruthy (.dict u) then false
      else
        let caps := pyOr (rowGet u "caps") (.dict [])
        if cap = "inventory" || cap = "asset" then
          pyTruthy (pyDictGet caps "inventory") || pyTruthy (pyDictGet caps "asset")
        else pyTruthy (pyDictGet caps cap)

end CoreAuth

/-! ## `app/modules/users/permissions.py` — `PermissionLevel`, `PermissionManager`

Levels are represented by their string values; `from_string` returns
`Option.none` exactly when `PermissionLevel.from_string` returns `None`. -/

namespace Permissions

/-- The values of the `PermissionLevel` enum. -/
def levelValues : List String :=
  ["M1", "M2", "M3A", "M3B", "M3C", "L1", "L2", "L3", "S1"]

/-- `PermissionLevel.from_string`. -/
def from_string (value : String) : Option String :=
  if value ∈ levelValues then some value else Option.none

/-- `PermissionLevel.get_hierarchy_level` (the `hierarchy` dict; the `0`
default is unreachable for actual enum members). -/
def get_hierarchy_level (value : String) : Nat :=
  if value = "M1" || value = "M2" || value = "M3A" || value = "M3B" then 1
  else if value = "M3C" then 2
  else if value = "L1" then 10
  else if value = "L2" then 20
  else if value = "L3" then 30
  else if value = "S1" then 100
  else 0

/-- `PermissionManager.get_included_permissions(level)`. -/
def get_included_permissions (level : String) : List String :=
  if (from_string level).isNone then []
  else if level = "S1" then ["S1", "L3", "L2", "L1", "M1", "M2", "M3A", "M3B", "M3C"]
  else if level = "L3" then ["L3", "L2", "L1", "M1", "M2", "M3A", "M3B", "M3C"]
  else if level = "L2" then ["L2", "L1", "M1", "M2", "M3A", "M3B", "M3C"]
  else if level = "L1" then ["L1", "M1", "M2", "M3A", "M3B", "M3C"]
  else if level = "M3C" then ["M3C", "M3B", "M3A"]
  else if level = "M3B" then ["M3B"]
  else [level]

/-- The `elevation_rules` dict of `PermissionManager.can_elevate_to`
(`Option.none` when the actor level is not a key). -/
def elevation_rules (actor : String) : Option (List String) :=
  if actor = "L1" then some ["L1"]
  else if actor = "L2" then some ["L1", "L2"]
  else if actor = "L3" then some ["L1", "L2", "L3"]
  else if actor = "S1" then some ["L1", "L2", "L3", "S1"]
  else Option.none

/-- `PermissionManager.can_elevate_to(actor_level, target_level)`. -/
def can_elevate_to (actor_level target_level : String) : Bool :=
  match from_string actor_level, from_string target_level with
  | some _, some _ =>
    match elevation_rules actor_level with
    | some ts => decide (target_level ∈ ts)
    | Option.none => false
  | _, _ => false

/-- `PermissionManager.can_modify_user(actor_level, target_level)`.
The leading `if not actor_level or not target_level` treats the empty
string as falsy. -/
def can_modify_user (actor_level target_level : String) : Bool :=
  if actor_level = "" || target_level = "" then false
  else
    match from_string actor_level, from_string target_level with
    | some a, some t => decide (get_hierarchy_level a > get_hierarchy_level t)
    | _, _ => false

/-- The old-format dict branch of `parse_module_permissions`. -/
def pmp_of_dict (kvs : List (String × PyVal)) : List PyVal :=
  (if pyTruthy (rowGet kvs "can_send") || pyTruthy (rowGet kvs "send") then
    [PyVal.str "M1"] else []) ++
  (if pyTruthy (rowGet kvs "can_asset") || pyTruthy (rowGet kvs "inventory") then
    [PyVal.str "M2"] else []) ++
  (if pyTruthy (rowGet kvs "can_fulfillment_customer") ||
      pyTruthy (rowGet kvs "fulfillment_customer") then [PyVal.str "M3A"] else []) ++
  (if pyTruthy (rowGet kvs "can_fulfillment_staff") ||
      pyTruthy (rowGet kvs "fulfillment_staff") then [PyVal.str "M3B"] else [])

/-- `PermissionManager.parse_module_permissions(permissions_json)`.
The bare `except` returns `[]` both for unparsable JSON and for the
`TypeError` raised by `json.loads` on a non-string argument. -/
def parse_module_permissions (p : PyVal) : List PyVal :=
  if !pyTruthy p then []
  else
    match p with
    | .str s =>
      match json_loads s with
      | some (.list xs) => xs
      | some (.dict kvs) => pmp_of_dict kvs
      | some _ => []
      | Option.none => []
    | _ => []

/-- `PermissionManager.check_permission(user_data, required_permission)`.
Python's `in` on the parsed list compares with `==` (`pyEq`). -/
def check_permission (user_data : Row) (required : String) : Bool :=
  let user_level := rowGetD user_data "permission_level" (.str "")
  let inIncluded : Bool :=
    if pyTruthy user_level then
      match user_level with
      | .str s => decide (required ∈ get_included_permissions s)
      | _ => false
    else false
  if inIncluded then true
  else
    (parse_module_permissions (rowGetD user_data "module_permissions" (.str "[]"))).any
      (fun x => pyEq (PyVal.str required) x)

end Permissions

/-! ## `app/modules/users/views.py` — permission level resolution and elevation -/

namespace UsersViews

/-- `get_user_permission_level(user_data)` from `app/modules/users/views.py`.
The `try` block maps a `caps` payload whose JSON carries a truthy
`is_system` to `"S1"`; any exception inside it (unparsable JSON, non-string
caps, non-dict JSON) is swallowed by `except: pass`.  The result is the raw
`permission_level` value when truthy, else the legacy flag mapping. -/
def get_user_permission_level (user_data : Option Row) : Option PyVal :=
  match user_data with
  | Option.none => Option.none
  | some u =>
    if !pyTruthy (.dict u) then Option.none
    else
      let capsV := pyOr (rowGetD u "caps" (.str "\x7b\x7d")) (.str "\x7b\x7d")
      let isSys : Bool :=
        match capsV with
        | .str s =>
          match json_loads s with
          | some v => pyTruthy (pyDictGet v "is_system")
          | Option.none => false
        | _ => false
      if isSys then some (.str "S1")
      else if pyTruthy (rowGet u "permission_level") then some (rowGet u "permission_level")
      else if pyTruthy (rowGet u "is_sysadmin") then some (.str "L2")
      else if pyTruthy (rowGet u "is_admin") then some (.str "L1")
      else Option.none

/-- `PermissionManager.can_elevate_to` applied to the (possibly `None`,
possibly non-string) result of `get_user_permission_level`:
`from_string` fails on anything that is not a known level string. -/
def can_elevate_pv (actor : Option PyVal) (target : PyVal) : Bool :=
  match actor, target with
  | some (.str a), .str t => Permissions.can_elevate_to a t
  | _, _ => false

/-- A row of the users table of `app/modules/users/views.py`, restricted to
the columns read or written by `update_user_permissions` / `elevate_user`. -/
structure UserRec where
  id : Int
  username : String
  permission_level : String
  module_permissions : String
  elevated_by : PyVal
  elevated_at : PyVal
  last_modified_at : String

/-- A row of `user_elevation_history`. -/
structure ElevationRecord where
  user_id : Int
  elevated_by : PyVal
  old_level : String
  new_level : String
  old_permissions : String
  new_permissions : String
  reason : PyVal

/-- The state mutated by the elevation screens: the users table and the
elevation-history table. -/
structure UsersDB where
  users : List UserRec
  history : List ElevationRecord

/-- `json.dumps` of a list of plain strings (no escaping needed for
permission tokens): `[]` ↦ `"[]"`, `["M1"]` ↦ `"[\"M1\"]"`. -/
def json_dumps_strs (xs : List String) : String :=
  "[" ++ String.intercalate ", " (xs.map (fun s => "\"" ++ s ++ "\"")) ++ "]"

/-- `update_user_permissions(uid, permission_level, module_permissions,
elevated_by, reason)` from `app/modules/users/views.py`.  `now` stands for
`datetime.utcnow().isoformat() + "Z"`.  The history row is inserted when
`elevated_by` is truthy and the permissions changed — note the source
compares the new `module_permissions` (a Python list) against the stored
JSON string `old_modules`, which are never `==` equal. -/
def update_user_permissions (db : UsersDB) (uid : Int) (permission_level : String)
    (module_permissions : List String) (elevated_by : PyVal) (reason : PyVal)
    (now : String) : UsersDB × Bool :=
  match db.users.find? (fun u => u.id = uid) with
  | Option.none => (db, false)
  | some user =>
    let old_level := user.permission_level
    let old_modules := user.module_permissions
    let newMods := json_dumps_strs module_permissions
    let users2 := db.users.map (fun u =>
      if u.id = uid then
        { u with
          permission_level := permission_level
          module_permissions := newMods
          elevated_by := elevated_by
          elevated_at := if pyTruthy elevated_by then .str now else .none
          last_modified_at := now }
      else u)
    let changed : Bool :=
      decide (permission_level ≠ old_level) ||
        !pyEq (.list (module_permissions.map PyVal.str)) (.str old_modules)
    let hist2 :=
      if pyTruthy elevated_by && changed then
        db.history ++ [{ user_id := uid, elevated_by := elevated_by,
                         old_level := old_level, new_level := permission_level,
                         old_permissions := old_modules, new_permissions := newMods,
                         reason := reason }]
      else db.history
    ({ users := users2, history := hist2 }, true)

/-- HTTP outcomes of the `elevate_user` route. -/
inductive ElevResp : Type where
  | notFound : ElevResp
  | badRequest : ElevResp
  | forbidden : ElevResp
  | success : String → ElevResp

/-- `elevate_user(uid)` from `app/modules/users/views.py` (the audit write
that follows the update goes to a separate store and is modelled in
`CommonUsers`).  `levelV` / `reasonV` are `request.json.get("level")` and
`request.json.get("reason", "")`; `cu` is the current user's row. -/
def elevate_user (db : UsersDB) (cu : Row) (uid : Int) (levelV reasonV : PyVal)
    (now : String) : UsersDB × ElevResp :=
  let cu_level := get_user_permission_level (some cu)
  match db.users.find? (fun u => u.id = uid) with
  | Option.none => (db, .notFound)
  | some _target =>
    if !pyTruthy levelV then (db, .badRequest)
    else if !can_elevate_pv cu_level levelV then (db, .forbidden)
    else
      match levelV with
      | .str lvl =>
        ((update_user_permissions db uid lvl [] (rowGet cu "id") reasonV now).1,
          .success lvl)
      | _ => (db, .forbidden)

end UsersViews

/-! ## `app/common/users.py` — audit recorder and query

The `audit_logs` table is a list of `AuditEntry` in insertion (rowid)
order.  A write failure of the underlying sqlite store (locked or full
database) raises from `con.execute`/`con.commit`; it is modelled by the
`ok` flag of `AuditStore`, and a raised exception by `Except.error`. -/

namespace CommonUsers

/-- A row of the `audit_logs` table (`NULL`able columns are `Option`s). -/
structure AuditEntry where
  id : Nat
  ts_utc : String
  user_id : Option Int
  username : Option String
  action : Option String
  module : Option String
  details : Option String
  ip : Option String
  deriving Repr, DecidableEq

/-- The audit store: its rows plus whether the next write succeeds. -/
structure AuditStore where
  rows : List AuditEntry
  ok : Bool

/-- The caller identity passed as `user_row` (`user_row["id"]`,
`user_row["username"]`). -/
structure UserRef where
  id : Int
  username : String

/-- The `INSERT INTO audit_logs ...; con.commit()` pair: appends a row
stamped `now` (the `ts_utc` column default), or raises when the store is
failing. -/
def try_insert (st : AuditStore) (now : String) (user : Option UserRef)
    (action module details : String) (ip : Option String) :
    Except Unit AuditStore :=
  if st.ok then
    .ok { st with
          rows := st.rows ++
            [{ id := st.rows.length + 1, ts_utc := now,
               user_id := user.map (fun u => u.id),
               username := user.map (fun u => u.username),
               action := some action, module := some module,
               details := some details, ip := ip }] }
  else .error ()

/-- `record_audit(user_row, action, module, details, ip)` from
`app/common/users.py`: the insert is performed with no exception handling,
so a store failure propagates to the caller. -/
def record_audit (st : AuditStore) (now : String) (user : Option UserRef)
    (action module details : String) (ip : Option String) :
    Except Unit AuditStore :=
  try_insert st now user action module details ip

/-- SQL `col LIKE '%pat%'` (case-insensitive substring; `NULL` never
matches). -/
def sqlLike (val : Option String) (pat : String) : Bool :=
  match val with
  | some s => decide ((pyLower pat).data <:+: (pyLower s).data)
  | Option.none => false

/-- SQLite `date(s)` restricted to ISO-8601 strings beginning
`YYYY-MM-DD` (which is what the `ts_utc` default produces); anything else
is `NULL`. -/
def sqliteDate (s : String) : Option String :=
  match s.data with
  | y1 :: y2 :: y3 :: y4 :: '-' :: m1 :: m2 :: '-' :: d1 :: d2 :: _ =>
    if [y1, y2, y3, y4, m1, m2, d1, d2].all Char.isDigit then
      some (String.mk [y1, y2, y3, y4, '-', m1, m2, '-', d1, d2])
    else Option.none
  | _ => Option.none

/-- The filter arguments of `query_audit` (`""` = filter absent, matching
the Python defaults and `if q:` truthiness). -/
structure AuditFilters where
  q : String
  username : String
  action : String
  date_from : String
  date_to : String

/-- The `WHERE` clause built by `query_audit`: each present filter is
`AND`ed on. -/
def auditMatch (f : AuditFilters) (e : AuditEntry) : Bool :=
  (f.q = "" || (sqlLike e.details f.q || sqlLike e.module f.q || sqlLike e.username f.q)) &&
  (f.username = "" || e.username = some f.username) &&
  (f.action = "" || e.action = some f.action) &&
  (f.date_from = "" ||
    (match sqliteDate e.ts_utc, sqliteDate f.date_from with
     | some a, some b => strLe b a
     | _, _ => false)) &&
  (f.date_to = "" ||
    (match sqliteDate e.ts_utc, sqliteDate f.date_to with
     | some a, some b => strLe a b
     | _, _ => false))

/-- The scan-key order in which `query_audit`'s rows come back.
`ensure_user_schema` (`app/common/users.py`) creates
`idx_audit_ts ON audit_logs(ts_utc)`, and SQLite satisfies
`ORDER BY ts_utc DESC LIMIT ?` by scanning that index in reverse; index
entries are ordered by `(ts_utc, rowid)`, so the reverse scan visits rows
in descending `(ts_utc, rowid)` lexicographic order — rows sharing a
timestamp come back with the largest (most recently inserted) rowid
first.  `keyLe a b` says `a`'s `(ts_utc, id)` scan key is at most `b`'s. -/
def keyLe (a b : AuditEntry) : Bool :=
  if strLe a.ts_utc b.ts_utc then
    if strLe b.ts_utc a.ts_utc then decide (a.id ≤ b.id) else true
  else false

/-- Insert into a list kept sorted descending by the `(ts_utc, rowid)`
scan key `keyLe`. -/
def insertDesc (e : AuditEntry) : List AuditEntry → List AuditEntry
  | [] => [e]
  | x :: xs => if keyLe e x then x :: insertDesc e xs else e :: x :: xs

/-- `ORDER BY ts_utc DESC` as produced by the reverse scan of
`idx_audit_ts`: rows in descending `(ts_utc, rowid)` order. -/
def sortDesc (l : List AuditEntry) : List AuditEntry :=
  l.foldl (fun acc e => insertDesc e acc) []

/-- `query_audit(q, username, action, date_from, date_to, limit)` from
`app/common/users.py`: `WHERE` filters, then `ORDER BY ts_utc DESC`, then
`LIMIT ?`. -/
def query_audit (rows : List AuditEntry) (f : AuditFilters) (limit : Nat) :
    List AuditEntry :=
  (sortDesc (rows.filter (auditMatch f))).take limit

end CommonUsers

/-! ## `app/core/auth.py` — `record_audit` (the swallowing variant) -/

namespace CoreAuth

/-- A row of the `audit` table of `app/core/auth.py`. -/
structure AuditEntry where
  ts_utc : String
  username : Option String
  source : Option String
  action : Option String
  details : Option String
  deriving Repr, DecidableEq

/-- The core audit store with its write-failure flag. -/
structure AuditStore where
  rows : List AuditEntry
  ok : Bool

/-- The `INSERT INTO audit ...; con.commit()` pair. -/
def try_insert (st : AuditStore) (now : String) (username : Option String)
    (source action details : String) : Except Unit AuditStore :=
  if st.ok then
    .ok { st with
          rows := st.rows ++
            [{ ts_utc := now, username := username, source := some source,
               action := some action, details := some details }] }
  else .error ()

/-- `record_audit(user, action, source, details)` from `app/core/auth.py`:
the whole body is wrapped in `try: ... except Exception: pass`, so a store
failure leaves the store unchanged and nothing propagates.
`(user or {}).get("username")` is `NULL` for an absent user. -/
def record_audit (st : AuditStore) (now : String)
    (user : Option Molina.CommonUsers.UserRef) (action source details : String) :
    AuditStore :=
  match try_insert st now (user.map (fun u => u.username)) source action details with
  | .ok st2 => st2
  | .error _ => st

end CoreAuth

/-! ## Concrete fixtures used by witnesses and counterexamples -/

/-- Audit entry "A", recorded first. -/
def auditA : CommonUsers.AuditEntry :=
  { id := 1, ts_utc := "2024-01-01T00:00:00Z", user_id := some 1,
    username := some "alice", action := some "A", module := some "m",
    details := some "first", ip := Option.none }

/-- Audit entry "B", recorded immediately after `auditA`, within the same
second — `ts_utc` has second granularity, so it carries the same timestamp. -/
def auditB : CommonUsers.AuditEntry :=
  { id := 2, ts_utc := "2024-01-01T00:00:00Z", user_id := some 1,
    username := some "alice", action := some "B", module := some "m",
    details := some "second", ip := Option.none }

/-- Audit entry "B" again, but recorded one second after `auditA`. -/
def auditB2 : CommonUsers.AuditEntry :=
  { id := 2, ts_utc := "2024-01-01T00:00:01Z", user_id := some 1,
    username := some "alice", action := some "B", module := some "m",
    details := some "second", ip := Option.none }

/-- Query filter: by username `alice` only. -/
def filtAlice : CommonUsers.AuditFilters :=
  { q := "", username := "alice", action := "", date_from := "", date_to := "" }

/-- An ordinary user holding only the discrete `M1` module grant. -/
def elevTarget : UsersViews.UserRec :=
  { id := 7, username := "bob", permission_level := "",
    module_permissions := "[\"M1\"]", elevated_by := .none, elevated_at := .none,
    last_modified_at := "" }

/-- Elevation state: one target user, empty elevation history. -/
def elevDb : UsersViews.UsersDB := { users := [elevTarget], history := [] }

/-- An `S1` administrator row as the current user. -/
def elevCuS1 : Row :=
  [("id", .int 3), ("username", .str "root"), ("permission_level", .str "S1")]

/-- An `L1` administrator row as the current user (may not elevate to L2). -/
def elevCuL1 : Row :=
  [("id", .int 4), ("username", .str "lead"), ("permission_level", .str "L1")]

end Molina

/-! # Theorems -/

namespace Molina

/-! ## Helper lemmas -/

theorem from_string_of_mem {a : String} (h : a ∈ Permissions.levelValues) :
    Permissions.from_string a = some a := by
  simp [Permissions.from_string, h]

theorem levelValues_ne_empty {a : String} (h : a ∈ Permissions.levelValues) :
    a ≠ "" := by
  intro he
  subst he
  simp [Permissions.levelValues] at h

/-! ## C1 -/

/-- C1, counterexample: a principal whose only flag is `is_system = 1` (and
whose capability set is empty) is Denied `"can_users"` by both `has_cap`
implementations — the claimed unconditional system bypass does not exist. -/
theorem c1_counterexample :
    CommonSecurity.has_cap (some [("is_system", PyVal.int 1)]) "can_users" = false ∧
    AuthSecurity.has_cap (some [("is_system", PyVal.int 1)]) "can_users" = false := by
  constructor <;> rfl

/-- C1 (amended): the unconditional bypass is keyed on the legacy
`is_admin` / `is_sysadmin` flags, not on `is_system`: a principal with
`is_sysadmin = 1` and an empty capability set is Allowed every capability
(including `"can_users"`), while a principal with only `is_system = 1` is
Denied `"can_users"`. -/
theorem c1_amended_bypass_is_admin_flags (cap : String) :
    CommonSecurity.has_cap (some [("is_sysadmin", PyVal.int 1)]) cap = true ∧
    AuthSecurity.has_cap (some [("is_sysadmin", PyVal.int 1)]) cap = true ∧
    CommonSecurity.has_cap (some [("is_system", PyVal.int 1)]) "can_users" = false ∧
    AuthSecurity.has_cap (some [("is_system", PyVal.int 1)]) "can_users" = false :=
  ⟨rfl, rfl, rfl, rfl⟩

/-! ## C3 -/

/-- C3, counterexample: `_caps_list` does not map the unparsable payload
`"{not valid json"` to the empty set — the comma-splitting fallback turns it
into a junk singleton token. -/
theorem c3_counterexample :
    CommonSecurity.caps_list [("caps", PyVal.str "\x7bnot valid json")] ≠ ∅ := by
  decide

/-- C3 (amended): both resolvers are total and deterministic and absent
input yields the empty set; `parse_module_permissions` yields `[]` on the
unparsable payload, but `_caps_list` falls back to comma-splitting and
yields the singleton set of the junk token `"{not valid json"`, not the
empty set. -/
theorem c3_amended_resolve_total (row : Row) (p : PyVal) :
    CommonSecurity.caps_list row = CommonSecurity.caps_list row ∧
    Permissions.parse_module_permissions p = Permissions.parse_module_permissions p ∧
    CommonSecurity.caps_list [] = ∅ ∧
    Permissions.parse_module_permissions PyVal.none = [] ∧
    Permissions.parse_module_permissions (PyVal.str "\x7bnot valid json") = [] ∧
    CommonSecurity.caps_list [("caps", PyVal.str "\x7bnot valid json")] =
      {"\x7bnot valid json"} :=
  ⟨rfl, rfl, by decide, rfl, rfl, by decide⟩


/-! ## C2 -/

/-- C2, counterexample: a principal whose only grant is
`permission_level = "M1"` is Denied `"can_send"` by `check_permission` —
the closure contains level tokens, not friendly capability names. -/
theorem c2_counterexample :
    Permissions.check_permission [("permission_level", PyVal.str "M1")] "can_send" = false :=
  rfl

/-- C2 (amended): `check_permission` grants any required capability
contained in the assigned level's closure, but the closure consists of
level tokens: an `M1`-only principal is Allowed `"M1"` and Denied both
`"can_send"` and `"can_asset"`. -/
theorem c2_amended_closure_tokens (u : Row) (lvl cap : String)
    (hlvl : u.lookup "permission_level" = some (PyVal.str lvl))
    (hmem : cap ∈ Permissions.get_included_permissions lvl) :
    Permissions.check_permission u cap = true ∧
    Permissions.check_permission [("permission_level", PyVal.str "M1")] "M1" = true ∧
    Permissions.check_permission [("permission_level", PyVal.str "M1")] "can_send" = false ∧
    Permissions.check_permission [("permission_level", PyVal.str "M1")] "can_asset" = false := by
  refine ⟨?_, rfl, rfl, rfl⟩
  have hlv : lvl ≠ "" := by
    rintro rfl
    simp [Permissions.get_included_permissions, Permissions.from_string,
      Permissions.levelValues] at hmem
  simp [Permissions.check_permission, rowGetD, hlvl, pyTruthy, hlv, hmem]

/-- C2 witness: an `L1` principal is Allowed `"M2"`, which is in `L1`'s
closure. -/
theorem c2_witness :
    Permissions.check_permission [("permission_level", PyVal.str "L1")] "M2" = true :=
  (c2_amended_closure_tokens [("permission_level", PyVal.str "L1")] "L1" "M2" rfl
    (by decide)).1

/-! ## C4 -/

theorem from_string_of_not_mem {a : String} (h : a ∉ Permissions.levelValues) :
    Permissions.from_string a = Option.none := by
  simp [Permissions.from_string, h]

theorem can_elevate_to_of_rules {a : String} {ts : List String}
    (ha : a ∈ Permissions.levelValues) (hr : Permissions.elevation_rules a = some ts)
    (hts : ∀ x ∈ ts, x ∈ Permissions.levelValues) (t : String) :
    Permissions.can_elevate_to a t = decide (t ∈ ts) := by
  unfold Permissions.can_elevate_to
  rw [from_string_of_mem ha]
  by_cases ht : t ∈ Permissions.levelValues
  · rw [from_string_of_mem ht, hr]
  · have htts : t ∉ ts := fun hx => ht (hts t hx)
    rw [from_string_of_not_mem ht]
    simp [htts]

theorem can_elevate_to_no_rules {a : String}
    (hr : Permissions.elevation_rules a = Option.none) (t : String) :
    Permissions.can_elevate_to a t = false := by
  unfold Permissions.can_elevate_to
  cases hfa : Permissions.from_string a <;> cases hft : Permissions.from_string t <;>
    simp [hr]

theorem elevation_rules_of_undefined {a : String}
    (h : Permissions.from_string a = Option.none) :
    Permissions.elevation_rules a = Option.none := by
  have ha : a ∉ Permissions.levelValues := by
    intro hm
    rw [from_string_of_mem hm] at h
    exact Option.noConfusion h
  have h1 : a ≠ "L1" := fun he => ha (by rw [he]; decide)
  have h2 : a ≠ "L2" := fun he => ha (by rw [he]; decide)
  have h3 : a ≠ "L3" := fun he => ha (by rw [he]; decide)
  have h4 : a ≠ "S1" := fun he => ha (by rw [he]; decide)
  simp [Permissions.elevation_rules, h1, h2, h3, h4]

/-- C4: `can_elevate_to` implements exactly the fixed elevation table
(L1↦{L1}, L2↦{L1,L2}, L3↦{L1,L2,L3}, S1↦{L1,L2,L3,S1}); every module-level
or undefined actor level can elevate to nothing; `("L2","L3")` is refused
and `("L2","L1")` is permitted. -/
theorem c4_can_elevate_table :
    (∀ t, Permissions.can_elevate_to "L1" t = decide (t ∈ ["L1"])) ∧
    (∀ t, Permissions.can_elevate_to "L2" t = decide (t ∈ ["L1", "L2"])) ∧
    (∀ t, Permissions.can_elevate_to "L3" t = decide (t ∈ ["L1", "L2", "L3"])) ∧
    (∀ t, Permissions.can_elevate_to "S1" t = decide (t ∈ ["L1", "L2", "L3", "S1"])) ∧
    (∀ a t, (a ∈ ["M1", "M2", "M3A", "M3B", "M3C"] ∨
        Permissions.from_string a = Option.none) →
      Permissions.can_elevate_to a t = false) ∧
    Permissions.can_elevate_to "L2" "L3" = false ∧
    Permissions.can_elevate_to "L2" "L1" = true := by
  refine ⟨can_elevate_to_of_rules (by decide) rfl (by decide),
    can_elevate_to_of_rules (by decide) rfl (by decide),
    can_elevate_to_of_rules (by decide) rfl (by decide),
    can_elevate_to_of_rules (by decide) rfl (by decide),
    ?_, rfl, rfl⟩
  intro a t h
  rcases h with hm | hu
  · fin_cases hm <;> exact can_elevate_to_no_rules (by decide) t
  · exact can_elevate_to_no_rules (elevation_rules_of_undefined hu) t

/-- C4 witness: a module-level actor (`"M1"`) cannot elevate anyone, and an
`L1` actor cannot elevate to `L2`. -/
theorem c4_witness :
    Permissions.can_elevate_to "M1" "L1" = false ∧
    Permissions.can_elevate_to "L1" "L2" = false := by
  constructor
  · exact c4_can_elevate_table.2.2.2.2.1 "M1" "L1" (Or.inl (by decide))
  · have h := c4_can_elevate_table.1 "L2"
    simpa using h

/-! ## C5 -/

theorem can_modify_user_eq {a t : String} (ha : a ∈ Permissions.levelValues)
    (ht : t ∈ Permissions.levelValues) :
    Permissions.can_modify_user a t =
      decide (Permissions.get_hierarchy_level a > Permissions.get_hierarchy_level t) := by
  unfold Permissions.can_modify_user
  rw [from_string_of_mem ha, from_string_of_mem ht]
  simp [levelValues_ne_empty ha, levelValues_ne_empty ht]

/-- C5: for defined levels, `can_modify_user` holds exactly when the
actor's numeric rank strictly exceeds the target's; in particular it is
irreflexive — no level can modify a peer of the same level. -/
theorem c5_can_modify_strict_rank :
    (∀ a ∈ Permissions.levelValues, ∀ t ∈ Permissions.levelValues,
      (Permissions.can_modify_user a t = true ↔
        Permissions.get_hierarchy_level a > Permissions.get_hierarchy_level t)) ∧
    (∀ l ∈ Permissions.levelValues, Permissions.can_modify_user l l = false) := by
  constructor
  · intro a ha t ht
    rw [can_modify_user_eq ha ht]
    exact decide_eq_true_iff
  · intro l hl
    rw [can_modify_user_eq hl hl]
    simp

/-- C5 witness: `L2` may modify `L1` (rank 20 > 10); `L1` may not modify
`L1`. -/
theorem c5_witness :
    Permissions.can_modify_user "L2" "L1" = true ∧
    Permissions.can_modify_user "L1" "L1" = false := by
  constructor
  · exact (c5_can_modify_strict_rank.1 "L2" (by decide) "L1" (by decide)).mpr (by decide)
  · exact c5_can_modify_strict_rank.2 "L1" (by decide)

/-! ## C9 -/

/-- C9: the closure of `S1` is a superset of the closure of every other
defined level — every token implied by holding any level is implied by
holding `S1`. -/
theorem c9_s1_closure_superset :
    ∀ l ∈ Permissions.levelValues, l ≠ "S1" →
      ∀ x ∈ Permissions.get_included_permissions l,
        x ∈ Permissions.get_included_permissions "S1" := by
  decide

/-- C9 witness: `M3A`, implied by the module level `M3C`, is also implied
by `S1`. -/
theorem c9_witness : "M3A" ∈ Permissions.get_included_permissions "S1" :=
  c9_s1_closure_superset "M3C" (by decide) (by decide) "M3A" (by decide)

/-! ## C10 -/

theorem lookup_ne_nil {r : Row} {k : String} {v : PyVal} (h : r.lookup k = some v) :
    r ≠ [] := by
  intro he
  subst he
  simp at h

theorem dictGetB_dictSetB_same (d : List (String × Bool)) (k : String) (v : Bool) :
    AuthSecurity.dictGetB (AuthSecurity.dictSetB d k v) k = v := by
  induction d with
  | nil => simp [AuthSecurity.dictSetB, AuthSecurity.dictGetB, List.lookup]
  | cons kv rest ih =>
    unfold AuthSecurity.dictSetB
    by_cases h : kv.1 = k
    · simp [h, AuthSecurity.dictGetB, List.lookup]
    · have hk : (k == kv.1) = false := by
        simp [beq_eq_false_iff_ne]
        exact fun he => h he.symm
      simp only [if_neg h]
      simp [AuthSecurity.dictGetB, List.lookup, hk] at ih ⊢
      exact ih

theorem dictGetB_dictSetB_ne (d : List (String × Bool)) {k k2 : String} (v : Bool)
    (h : k ≠ k2) :
    AuthSecurity.dictGetB (AuthSecurity.dictSetB d k2 v) k = AuthSecurity.dictGetB d k := by
  induction d with
  | nil =>
    have hk : (k == k2) = false := by simp [beq_eq_false_iff_ne, h]
    simp [AuthSecurity.dictSetB, AuthSecurity.dictGetB, List.lookup, hk]
  | cons kv rest ih =>
    unfold AuthSecurity.dictSetB
    by_cases hk : kv.1 = k2
    · subst hk
      have : (k == kv.1) = false := by
        simp [beq_eq_false_iff_ne]
        exact h
      simp [AuthSecurity.dictGetB, List.lookup, this]
    · simp only [if_neg hk]
      by_cases hkk : k = kv.1
      · simp [AuthSecurity.dictGetB, List.lookup, hkk]
      · have : (k == kv.1) = false := by simp [beq_eq_false_iff_ne, hkk]
        simp [AuthSecurity.dictGetB, List.lookup, this] at ih ⊢
        exact ih

theorem parse_caps_flag_admin {u : Row} {v : PyVal} (h : u.lookup "is_admin" = some v) :
    AuthSecurity.dictGetB (AuthSecurity.parse_caps u) "is_admin" = pyTruthy v := by
  unfold AuthSecurity.parse_caps
  rw [h]
  cases hs : u.lookup "is_sysadmin" with
  | none => simp [dictGetB_dictSetB_same]
  | some w =>
    rw [dictGetB_dictSetB_ne _ _ (by decide)]
    simp [dictGetB_dictSetB_same]

theorem parse_caps_flag_sysadmin {u : Row} {v : PyVal}
    (h : u.lookup "is_sysadmin" = some v) :
    AuthSecurity.dictGetB (AuthSecurity.parse_caps u) "is_sysadmin" = pyTruthy v := by
  unfold AuthSecurity.parse_caps
  rw [h]
  cases ha : u.lookup "is_admin" <;> simp [dictGetB_dictSetB_same]

/-- C10: every user row whose `is_admin` or `is_sysadmin` column holds a
truthy integer passes all three capability checks for every capability
token whatsoever (including `"sysadmin"` for an `is_admin`-only user),
regardless of the row's discrete capability payload. -/
theorem c10_legacy_flag_bypass (row : Row) (cap : String) (n : Int) (hn : n ≠ 0)
    (h : row.lookup "is_admin" = some (PyVal.int n) ∨
      row.lookup "is_sysadmin" = some (PyVal.int n)) :
    CommonSecurity.has_cap (some row) cap = true ∧
    AuthSecurity.has_cap (some row) cap = true ∧
    CoreAuth.has_cap (some row) cap = true := by
  have hne : row ≠ [] := by
    rcases h with h | h <;> exact lookup_ne_nil h
  have hrow : pyTruthy (PyVal.dict row) = true := by
    simp [pyTruthy, hne]
  refine ⟨?_, ?_, ?_⟩
  · unfold CommonSecurity.has_cap
    rcases h with h | h
    · have hb : CommonSecurity.as_bool row "is_admin" = true := by
        simp [CommonSecurity.as_bool, rowGet, h, hn]
      simp [hrow, hb]
    · have hb : CommonSecurity.as_bool row "is_sysadmin" = true := by
        simp [CommonSecurity.as_bool, rowGet, h, hn]
      simp [hrow, hb]
  · unfold AuthSecurity.has_cap
    rcases h with h | h
    · have hb : AuthSecurity.dictGetB (AuthSecurity.parse_caps row) "is_admin" = true := by
        rw [parse_caps_flag_admin h]
        simp [pyTruthy, hn]
      simp [hrow, hb]
    · have hb : AuthSecurity.dictGetB (AuthSecurity.parse_caps row) "is_sysadmin" = true := by
        rw [parse_caps_flag_sysadmin h]
        simp [pyTruthy, hn]
      simp [hrow, hb]
  · unfold CoreAuth.has_cap CoreAuth.as_bool
    rcases h with h | h
    · have hb : pyTruthy (rowGet row "is_admin") = true := by
        simp [rowGet, h, pyTruthy, hn]
      simp [hne, hb]
    · have hb : pyTruthy (rowGet row "is_sysadmin") = true := by
        simp [rowGet, h, pyTruthy, hn]
      simp [hne, hb]

/-- C10 witness: a row holding only `is_admin = 1` passes all three checks
for the `"sysadmin"` token. -/
theorem c10_witness :
    CommonSecurity.has_cap (some [("is_admin", PyVal.int 1)]) "sysadmin" = true ∧
    AuthSecurity.has_cap (some [("is_admin", PyVal.int 1)]) "sysadmin" = true ∧
    CoreAuth.has_cap (some [("is_admin", PyVal.int 1)]) "sysadmin" = true :=
  c10_legacy_flag_bypass [("is_admin", PyVal.int 1)] "sysadmin" 1 (by decide)
    (Or.inl rfl)

/-! ## C7 -/

/-- C7, counterexample: `record_audit` of `app/common/users.py` performs
its insert with no exception handling — on a failing audit store the write
failure propagates (raises) to the caller instead of being swallowed. -/
theorem c7_counterexample :
    CommonUsers.record_audit { rows := [], ok := false } "2024-01-01T00:00:00Z"
      (some { id := 1, username := "alice" }) "login" "auth" "ok" Option.none =
      Except.error () :=
  rfl

/-- C7 (amended): the `record_audit` of `app/core/auth.py` never raises —
a write failure is swallowed and leaves the store unchanged, a successful
write appends the entry — but the `record_audit` of `app/common/users.py`
propagates a write failure to the triggering caller. -/
theorem c7_amended_swallow_vs_propagate (st : CoreAuth.AuditStore)
    (cst : CommonUsers.AuditStore) (now : String)
    (user : Option CommonUsers.UserRef) (action source module details : String)
    (ip : Option String) :
    (st.ok = false → CoreAuth.record_audit st now user action source details = st) ∧
    (st.ok = true → CoreAuth.record_audit st now user action source details =
      { st with
        rows := st.rows ++
          [{ ts_utc := now, username := user.map (fun u => u.username),
             source := some source, action := some action,
             details := some details }] }) ∧
    (cst.ok = false →
      CommonUsers.record_audit cst now user action module details ip =
        Except.error ()) := by
  refine ⟨?_, ?_, ?_⟩
  · intro hok
    simp [CoreAuth.record_audit, CoreAuth.try_insert, hok]
  · intro hok
    simp [CoreAuth.record_audit, CoreAuth.try_insert, hok]
  · intro hok
    simp [CommonUsers.record_audit, CommonUsers.try_insert, hok]

/-- C7 witness: on a failing store, the core recorder returns the store
unchanged while the common recorder raises. -/
theorem c7_witness :
    CoreAuth.record_audit { rows := [], ok := false } "t" Option.none "a" "s" "d" =
      { rows := [], ok := false } ∧
    CommonUsers.record_audit { rows := [], ok := false } "t" Option.none "a" "m" "d"
      Option.none = Except.error () := by
  have h := c7_amended_swallow_vs_propagate { rows := [], ok := false }
    { rows := [], ok := false } "t" Option.none "a" "s" "m" "d" Option.none
  exact ⟨h.1 rfl, h.2.2 rfl⟩

/-! ## C6 -/

theorem pyEq_list_str (xs : List PyVal) (s : String) :
    pyEq (PyVal.list xs) (PyVal.str s) = false :=
  rfl

theorem json_dumps_strs_nil : UsersViews.json_dumps_strs [] = "[]" :=
  rfl

theorem can_elevate_pv_target_not_str (a : Option PyVal) (v : PyVal)
    (hv : ∀ s, v ≠ PyVal.str s) : UsersViews.can_elevate_pv a v = false := by
  rcases a with _ | pv
  · rfl
  · rcases pv with _ | b | n | s | xs | kvs <;>
      rcases v with _ | b2 | n2 | s2 | xs2 | kvs2 <;>
      first
        | rfl
        | exact absurd rfl (hv _)

/-- C6: `elevate_user` validates `can_elevate_to` first; on any failure
(unknown target, missing level, policy refusal) the state is returned
unchanged, and on success it replaces the target's `permission_level`,
clears the discrete module grants (`module_permissions` becomes `"[]"`)
and appends exactly one elevation-history record — all in one commit. -/
theorem c6_elevate_all_or_nothing (db : UsersViews.UsersDB) (cu : Row) (uid : Int)
    (levelV reasonV : PyVal) (now : String)
    (hid : pyTruthy (rowGet cu "id") = true) :
    ((UsersViews.elevate_user db cu uid levelV reasonV now).2 =
        UsersViews.ElevResp.notFound ∨
      (UsersViews.elevate_user db cu uid levelV reasonV now).2 =
        UsersViews.ElevResp.badRequest ∨
      (UsersViews.elevate_user db cu uid levelV reasonV now).2 =
        UsersViews.ElevResp.forbidden →
      (UsersViews.elevate_user db cu uid levelV reasonV now).1 = db) ∧
    (∀ lvl, (UsersViews.elevate_user db cu uid levelV reasonV now).2 =
        UsersViews.ElevResp.success lvl →
      UsersViews.can_elevate_pv (UsersViews.get_user_permission_level (some cu))
          (PyVal.str lvl) = true ∧
      ∃ t, db.users.find? (fun u => u.id = uid) = some t ∧
        (UsersViews.elevate_user db cu uid levelV reasonV now).1.users =
          db.users.map (fun u => if u.id = uid then
            { u with
              permission_level := lvl
              module_permissions := "[]"
              elevated_by := rowGet cu "id"
              elevated_at := PyVal.str now
              last_modified_at := now }
            else u) ∧
        (UsersViews.elevate_user db cu uid levelV reasonV now).1.history =
          db.history ++
            [{ user_id := uid, elevated_by := rowGet cu "id",
               old_level := t.permission_level, new_level := lvl,
               old_permissions := t.module_permissions,
               new_permissions := "[]", reason := reasonV }]) := by
  rcases hf : db.users.find? (fun u => u.id = uid) with _ | t
  · have he : UsersViews.elevate_user db cu uid levelV reasonV now =
        (db, UsersViews.ElevResp.notFound) := by
      unfold UsersViews.elevate_user
      rw [hf]
    rw [he]
    exact ⟨fun _ => rfl, fun lvl h => nomatch h⟩
  · by_cases hlv : pyTruthy levelV = true
    · by_cases hce : UsersViews.can_elevate_pv
          (UsersViews.get_user_permission_level (some cu)) levelV = true
      · cases levelV with
        | str lvl0 =>
          have he : UsersViews.elevate_user db cu uid (PyVal.str lvl0) reasonV now =
              ((UsersViews.update_user_permissions db uid lvl0 [] (rowGet cu "id")
                  reasonV now).1,
                UsersViews.ElevResp.success lvl0) := by
            unfold UsersViews.elevate_user
            rw [hf]
            simp [hlv, hce]
          rw [he]
          refine ⟨fun hcontra => ?_, fun lvl hs => ?_⟩
          · rcases hcontra with h | h | h <;> exact nomatch h
          · have hlvl : lvl0 = lvl := by
              injection hs
            subst hlvl
            refine ⟨hce, t, hf, ?_, ?_⟩
            · unfold UsersViews.update_user_permissions
              rw [hf]
              simp [hid, json_dumps_strs_nil]
            · unfold UsersViews.update_user_permissions
              rw [hf]
              simp [hid, json_dumps_strs_nil, pyEq_list_str]
        | none =>
          rw [can_elevate_pv_target_not_str _ _ (fun s h => PyVal.noConfusion h)] at hce
          exact absurd hce (by simp)
        | bool b =>
          rw [can_elevate_pv_target_not_str _ _ (fun s h => PyVal.noConfusion h)] at hce
          exact absurd hce (by simp)
        | int n =>
          rw [can_elevate_pv_target_not_str _ _ (fun s h => PyVal.noConfusion h)] at hce
          exact absurd hce (by simp)
        | list xs =>
          rw [can_elevate_pv_target_not_str _ _ (fun s h => PyVal.noConfusion h)] at hce
          exact absurd hce (by simp)
        | dict kvs =>
          rw [can_elevate_pv_target_not_str _ _ (fun s h => PyVal.noConfusion h)] at hce
          exact absurd hce (by simp)
      · have he : UsersViews.elevate_user db cu uid levelV reasonV now =
            (db, UsersViews.ElevResp.forbidden) := by
          unfold UsersViews.elevate_user
          rw [hf]
          simp [hlv, hce]
        rw [he]
        exact ⟨fun _ => rfl, fun lvl h => nomatch h⟩
    · have hlv2 : pyTruthy levelV = false := by
        simpa using hlv
      have he : UsersViews.elevate_user db cu uid levelV reasonV now =
          (db, UsersViews.ElevResp.badRequest) := by
        unfold UsersViews.elevate_user
        rw [hf]
        simp [hlv2]
      rw [he]
      exact ⟨fun _ => rfl, fun lvl h => nomatch h⟩

/-- C6 witness: an `L1` actor attempting to elevate the fixture target to
`L2` is refused and the state is unchanged. -/
theorem c6_witness :
    (UsersViews.elevate_user elevDb elevCuL1 7 (PyVal.str "L2") (PyVal.str "x")
        "T1").1 = elevDb := by
  have h := c6_elevate_all_or_nothing elevDb elevCuL1 7 (PyVal.str "L2")
    (PyVal.str "x") "T1" rfl
  exact h.1 (Or.inr (Or.inr rfl))

/-! ## C8 -/

theorem strLeChars_total (a b : List Char) :
    strLeChars a b = true ∨ strLeChars b a = true := by
  induction a generalizing b with
  | nil => left; rfl
  | cons x xs ih =>
    cases b with
    | nil => right; rfl
    | cons y ys =>
      by_cases hxy : x.toNat = y.toNat
      · rcases ih ys with h | h
        · left
          simp [strLeChars, hxy, h]
        · right
          simp [strLeChars, hxy.symm, h]
      · rcases Nat.lt_or_ge x.toNat y.toNat with h | h
        · left
          simp [strLeChars, hxy, h]
        · have hyx : y.toNat < x.toNat :=
            Nat.lt_of_le_of_ne h (fun he => hxy he.symm)
          have hne : y.toNat ≠ x.toNat := fun he => hxy he.symm
          right
          simp [strLeChars, hne, hyx]

theorem strLeChars_trans {a b c : List Char} (h1 : strLeChars a b = true)
    (h2 : strLeChars b c = true) : strLeChars a c = true := by
  induction a generalizing b c with
  | nil => rfl
  | cons x xs ih =>
    cases b with
    | nil => simp [strLeChars] at h1
    | cons y ys =>
      cases c with
      | nil => simp [strLeChars] at h2
      | cons z zs =>
        by_cases hxy : x.toNat = y.toNat <;> by_cases hyz : y.toNat = z.toNat
        · have hxz : x.toNat = z.toNat := hxy.trans hyz
          simp [strLeChars, hxy, hyz, hxz] at h1 h2 ⊢
          exact ih h1 h2
        · have hxz : x.toNat ≠ z.toNat := by
            rw [hxy]
            exact hyz
          simp [strLeChars, hxy, hyz, hxz] at h1 h2 ⊢
          exact h2
        · have hxz : x.toNat ≠ z.toNat := fun he => hxy (he.trans hyz.symm)
          simp [strLeChars, hxy, hyz, hxz] at h1 h2 ⊢
          exact h1
        · have hx : x.toNat < y.toNat := by simpa [strLeChars, hxy] using h1
          have hy : y.toNat < z.toNat := by simpa [strLeChars, hyz] using h2
          have hxz : x.toNat < z.toNat := Nat.lt_trans hx hy
          simp [strLeChars, Nat.ne_of_lt hxz, hxz]

theorem strLe_total (a b : String) : strLe a b = true ∨ strLe b a = true :=
  strLeChars_total a.data b.data

theorem strLe_trans {a b c : String} (h1 : strLe a b = true) (h2 : strLe b c = true) :
    strLe a c = true :=
  strLeChars_trans h1 h2

theorem keyLe_eq_true_iff {a b : CommonUsers.AuditEntry} :
    CommonUsers.keyLe a b = true ↔
      (strLe a.ts_utc b.ts_utc = true ∧
        (strLe b.ts_utc a.ts_utc = true → a.id ≤ b.id)) := by
  unfold CommonUsers.keyLe
  cases hab : strLe a.ts_utc b.ts_utc <;> cases hba : strLe b.ts_utc a.ts_utc <;>
    simp [hab, hba]

theorem keyLe_total (a b : CommonUsers.AuditEntry) :
    CommonUsers.keyLe a b = true ∨ CommonUsers.keyLe b a = true := by
  rw [keyLe_eq_true_iff, keyLe_eq_true_iff]
  rcases strLe_total a.ts_utc b.ts_utc with h | h
  · by_cases h2 : strLe b.ts_utc a.ts_utc = true
    · rcases Nat.le_total a.id b.id with hi | hi
      · exact Or.inl ⟨h, fun _ => hi⟩
      · exact Or.inr ⟨h2, fun _ => hi⟩
    · exact Or.inl ⟨h, fun hc => absurd hc h2⟩
  · by_cases h2 : strLe a.ts_utc b.ts_utc = true
    · rcases Nat.le_total a.id b.id with hi | hi
      · exact Or.inl ⟨h2, fun _ => hi⟩
      · exact Or.inr ⟨h, fun _ => hi⟩
    · exact Or.inr ⟨h, fun hc => absurd hc h2⟩

theorem keyLe_trans {a b c : CommonUsers.AuditEntry}
    (h1 : CommonUsers.keyLe a b = true) (h2 : CommonUsers.keyLe b c = true) :
    CommonUsers.keyLe a c = true := by
  rw [keyLe_eq_true_iff] at h1 h2 ⊢
  obtain ⟨hab, hid1⟩ := h1
  obtain ⟨hbc, hid2⟩ := h2
  refine ⟨strLe_trans hab hbc, fun hca => ?_⟩
  have hba : strLe b.ts_utc a.ts_utc = true := strLe_trans hbc hca
  have hcb : strLe c.ts_utc b.ts_utc = true := strLe_trans hca hab
  exact Nat.le_trans (hid1 hba) (hid2 hcb)

theorem keyLe_ts {a b : CommonUsers.AuditEntry} (h : CommonUsers.keyLe a b = true) :
    strLe a.ts_utc b.ts_utc = true :=
  (keyLe_eq_true_iff.mp h).1

theorem mem_insertDesc {e x : CommonUsers.AuditEntry}
    {l : List CommonUsers.AuditEntry} :
    x ∈ CommonUsers.insertDesc e l ↔ x = e ∨ x ∈ l := by
  induction l with
  | nil => simp [CommonUsers.insertDesc]
  | cons a as ih =>
    unfold CommonUsers.insertDesc
    by_cases h : CommonUsers.keyLe e a = true
    · simp only [h, if_true, List.mem_cons, ih]
      tauto
    · have h2 : CommonUsers.keyLe e a = false := by simpa using h
      simp only [h2, Bool.false_eq_true, if_false, List.mem_cons]

theorem length_insertDesc (e : CommonUsers.AuditEntry)
    (l : List CommonUsers.AuditEntry) :
    (CommonUsers.insertDesc e l).length = l.length + 1 := by
  induction l with
  | nil => rfl
  | cons a as ih =>
    unfold CommonUsers.insertDesc
    by_cases h : CommonUsers.keyLe e a = true
    · simp [h, ih]
    · have h2 : CommonUsers.keyLe e a = false := by simpa using h
      simp [h2]

theorem pairwise_insertDesc {e : CommonUsers.AuditEntry}
    {l : List CommonUsers.AuditEntry}
    (h : l.Pairwise (fun x y => CommonUsers.keyLe y x = true)) :
    (CommonUsers.insertDesc e l).Pairwise
      (fun x y => CommonUsers.keyLe y x = true) := by
  induction l with
  | nil => simp [CommonUsers.insertDesc]
  | cons a as ih =>
    rcases List.pairwise_cons.mp h with ⟨ha, has⟩
    unfold CommonUsers.insertDesc
    by_cases hle : CommonUsers.keyLe e a = true
    · simp only [hle, if_true]
      rw [List.pairwise_cons]
      refine ⟨fun y hy => ?_, ih has⟩
      rcases mem_insertDesc.mp hy with rfl | hy2
      · exact hle
      · exact ha y hy2
    · have hgt : CommonUsers.keyLe a e = true := by
        rcases keyLe_total a e with h1 | h1
        · exact h1
        · exact absurd h1 hle
      have h2 : CommonUsers.keyLe e a = false := by simpa using hle
      simp only [h2, Bool.false_eq_true, if_false]
      rw [List.pairwise_cons]
      refine ⟨fun y hy => ?_, h⟩
      rcases List.mem_cons.mp hy with rfl | hy2
      · exact hgt
      · exact keyLe_trans (ha y hy2) hgt

theorem mem_foldl_insertDesc (l acc : List CommonUsers.AuditEntry)
    (x : CommonUsers.AuditEntry) :
    x ∈ l.foldl (fun a e => CommonUsers.insertDesc e a) acc ↔ x ∈ acc ∨ x ∈ l := by
  induction l generalizing acc with
  | nil => simp
  | cons e es ih =>
    rw [List.foldl_cons, ih]
    rw [mem_insertDesc]
    simp
    tauto

theorem length_foldl_insertDesc (l acc : List CommonUsers.AuditEntry) :
    (l.foldl (fun a e => CommonUsers.insertDesc e a) acc).length =
      acc.length + l.length := by
  induction l generalizing acc with
  | nil => rfl
  | cons e es ih =>
    rw [List.foldl_cons, ih, length_insertDesc, List.length_cons]
    omega

theorem pairwise_foldl_insertDesc (l : List CommonUsers.AuditEntry)
    {acc : List CommonUsers.AuditEntry}
    (hacc : acc.Pairwise (fun x y => CommonUsers.keyLe y x = true)) :
    (l.foldl (fun a e => CommonUsers.insertDesc e a) acc).Pairwise
      (fun x y => CommonUsers.keyLe y x = true) := by
  induction l generalizing acc with
  | nil => exact hacc
  | cons e es ih =>
    rw [List.foldl_cons]
    exact ih (pairwise_insertDesc hacc)

theorem mem_sortDesc {l : List CommonUsers.AuditEntry}
    {x : CommonUsers.AuditEntry} :
    x ∈ CommonUsers.sortDesc l ↔ x ∈ l := by
  unfold CommonUsers.sortDesc
  rw [mem_foldl_insertDesc]
  simp

theorem length_sortDesc (l : List CommonUsers.AuditEntry) :
    (CommonUsers.sortDesc l).length = l.length := by
  unfold CommonUsers.sortDesc
  rw [length_foldl_insertDesc]
  simp

theorem pairwise_sortDesc (l : List CommonUsers.AuditEntry) :
    (CommonUsers.sortDesc l).Pairwise (fun x y => CommonUsers.keyLe y x = true) :=
  pairwise_foldl_insertDesc l List.Pairwise.nil

theorem pair_sublist_of_mem {α : Type} {a b : α} {l : List α}
    (ha : a ∈ l) (hb : b ∈ l) (hab : a ≠ b) :
    List.Sublist [a, b] l ∨ List.Sublist [b, a] l := by
  induction l with
  | nil => simp at ha
  | cons x xs ih =>
    by_cases hax : a = x
    · subst hax
      have hbxs : b ∈ xs := by
        rcases List.mem_cons.mp hb with h | h
        · exact absurd h.symm hab
        · exact h
      exact Or.inl ((List.singleton_sublist.mpr hbxs).cons₂ a)
    · by_cases hbx : b = x
      · subst hbx
        have haxs : a ∈ xs := by
          rcases List.mem_cons.mp ha with h | h
          · exact absurd h hax
          · exact h
        exact Or.inr ((List.singleton_sublist.mpr haxs).cons₂ b)
      · have ha2 : a ∈ xs := by
          rcases List.mem_cons.mp ha with h | h
          · exact absurd h hax
          · exact h
        have hb2 : b ∈ xs := by
          rcases List.mem_cons.mp hb with h | h
          · exact absurd h hbx
          · exact h
        rcases ih ha2 hb2 with h | h
        · exact Or.inl (h.cons x)
        · exact Or.inr (h.cons x)

/-- C8: `query_audit` returns at most `limit` entries, ordered by `ts_utc`
newest-first (the reverse scan of `idx_audit_ts` yields descending
`(ts_utc, rowid)` order); every returned entry satisfies the conjunction
of the present filters and — when no more than `limit` entries match — an
entry appears exactly when it is stored and satisfies every present
filter.  Recording A then B for the same actor (so A's rowid is smaller
and its timestamp not later) and querying by that actor yields B before A,
including when both fall within the same second; the two-entry scenarios
evaluate to `[B, A]` concretely. -/
theorem c8_query_newest_first (rows : List CommonUsers.AuditEntry)
    (f : CommonUsers.AuditFilters) (limit : Nat) :
    (CommonUsers.query_audit rows f limit).length ≤ limit ∧
    (CommonUsers.query_audit rows f limit).Pairwise
      (fun a b => strLe b.ts_utc a.ts_utc = true) ∧
    (∀ e ∈ CommonUsers.query_audit rows f limit,
      CommonUsers.auditMatch f e = true) ∧
    ((rows.filter (CommonUsers.auditMatch f)).length ≤ limit →
      ∀ e, e ∈ CommonUsers.query_audit rows f limit ↔
        e ∈ rows ∧ CommonUsers.auditMatch f e = true) ∧
    (∀ a b, a ∈ rows → b ∈ rows → a ≠ b →
      CommonUsers.auditMatch f a = true → CommonUsers.auditMatch f b = true →
      strLe a.ts_utc b.ts_utc = true → a.id < b.id →
      (rows.filter (CommonUsers.auditMatch f)).length ≤ limit →
      List.Sublist [b, a] (CommonUsers.query_audit rows f limit)) ∧
    CommonUsers.query_audit [auditA, auditB] filtAlice 10 = [auditB, auditA] ∧
    CommonUsers.query_audit [auditA, auditB2] filtAlice 10 = [auditB2, auditA] := by
  have hmemiff : (rows.filter (CommonUsers.auditMatch f)).length ≤ limit →
      ∀ e, e ∈ CommonUsers.query_audit rows f limit ↔
        e ∈ rows ∧ CommonUsers.auditMatch f e = true := by
    intro hlen e
    unfold CommonUsers.query_audit
    rw [List.take_of_length_le (by rw [length_sortDesc]; exact hlen)]
    rw [mem_sortDesc, List.mem_filter]
  have hpw : (CommonUsers.query_audit rows f limit).Pairwise
      (fun x y => CommonUsers.keyLe y x = true) :=
    List.Pairwise.sublist (List.take_sublist _ _) (pairwise_sortDesc _)
  refine ⟨?_, ?_, ?_, hmemiff, ?_, by decide, by decide⟩
  · unfold CommonUsers.query_audit
    rw [List.length_take]
    exact min_le_left _ _
  · exact hpw.imp (fun h => keyLe_ts h)
  · intro e he
    have h1 : e ∈ CommonUsers.sortDesc (rows.filter (CommonUsers.auditMatch f)) :=
      List.take_subset _ _ he
    exact List.of_mem_filter (mem_sortDesc.mp h1)
  · intro a b ha hb hne hfa hfb hts hid hlen
    have hina : a ∈ CommonUsers.query_audit rows f limit :=
      (hmemiff hlen a).mpr ⟨ha, hfa⟩
    have hinb : b ∈ CommonUsers.query_audit rows f limit :=
      (hmemiff hlen b).mpr ⟨hb, hfb⟩
    rcases pair_sublist_of_mem hina hinb hne with hsub | hsub
    · exfalso
      have hR : CommonUsers.keyLe b a = true :=
        (List.pairwise_cons.mp (List.Pairwise.sublist hsub hpw)).1 b (by simp)
      rw [keyLe_eq_true_iff] at hR
      have := hR.2 hts
      omega
    · exact hsub

/-- C8 witness: two same-second records for `alice` come back
newest-rowid-first, `[auditB, auditA]`, as a sublist of the query result. -/
theorem c8_witness :
    List.Sublist [auditB, auditA] (CommonUsers.query_audit [auditA, auditB] filtAlice 10) := by
  have h := c8_query_newest_first [auditA, auditB] filtAlice 10
  exact h.2.2.2.2.1 auditA auditB (by decide) (by decide) (by decide) (by decide)
    (by decide) (by decide) (by decide) (by decide)

end Molina
